import Mathlib

/-!
# Verification of the nockchain-rpc block indexer core (src/main.rs)

Shallow embedding of the block-record codec, block rendering and the two
query operations of `src/main.rs`, together with theorems settling the
specification claims about them.

Modelling conventions:
* Rust byte slices become `List UInt8`; the decode cursor `offset` over the
  full slice is represented by the remaining suffix of the buffer (the Rust
  code only ever reads at or after `offset`, so the two views coincide).
* Machine integers become `Nat`; the 4-byte little-endian length prefix is
  read by `leU32` exactly as `u32::from_le_bytes` does.
* The external nockvm serialization scheme (`cue` / `jam`) is not part of
  this repository; per the spec it is an injected codec capability, so the
  decoder is parameterised by `cue : List UInt8 → Except String Noun` and
  the renderer by `jam : Noun → List UInt8`.
* Fallible Rust functions returning `Result` become `Except`.
-/

/-- Model of the external nockvm `Noun`: an unsigned atom of unbounded
magnitude, or a cell of two nouns. -/
inductive Noun : Type
  | atom (val : Nat)
  | cell (head tail : Noun)
deriving DecidableEq, Repr

/-- The error enum of `src/main.rs` (`IndexerError`).  Each constructor
carries the formatted message text the Rust code puts into it. -/
inductive IndexerError : Type
  | RocksDB (msg : String)
  | Hex (msg : String)
  | InvalidData (msg : String)
  | Memory (msg : String)
deriving DecidableEq, Repr

/-- The gRPC statuses produced by `impl From<IndexerError> for Status`
(`src/main.rs` lines 49-58). -/
inductive Status : Type
  | internal (msg : String)
  | invalidArgument (msg : String)
  | resourceExhausted (msg : String)
deriving DecidableEq, Repr

/-- `impl From<IndexerError> for Status` (`src/main.rs` lines 49-58). -/
def statusOfIndexerError : IndexerError → Status
  | .RocksDB e => .internal ("RocksDB error: " ++ e)
  | .Hex e => .invalidArgument ("Hex decode error: " ++ e)
  | .InvalidData e => .invalidArgument ("Invalid data: " ++ e)
  | .Memory e => .resourceExhausted ("Memory error: " ++ e)

/-- True exactly on the internal / invalid-argument statuses of the
spec's error taxonomy (§7: "internal/invalid-data error"). -/
def Status.isInternalOrInvalidData : Status → Bool
  | .internal _ => true
  | .invalidArgument _ => true
  | .resourceExhausted _ => false

/-- The spec's decode-error taxonomy (§7).  The Rust code itself only has
`IndexerError` values; `readEntriesC` below carries the class of the check
that fired alongside the exact `IndexerError` the Rust code raises, so
that theorems can speak about the taxonomy without changing the code's
observable error values. -/
inductive DecodeErrorClass : Type
  | truncated
  | fieldTooLarge
  | deserializeFailed
deriving DecidableEq, Repr

instance {ε α : Type} [DecidableEq ε] [DecidableEq α] : DecidableEq (Except ε α) := by
  intro a b
  cases a <;> cases b
  case error.error x y => exact decidable_of_iff (x = y) (by simp)
  case ok.ok x y => exact decidable_of_iff (x = y) (by simp)
  all_goals exact isFalse (by intro h; cases h)

/-- `u32::from_le_bytes` on the four prefix bytes (`src/main.rs` line 137). -/
def leU32 (b0 b1 b2 b3 : UInt8) : Nat :=
  b0.toNat + 256 * b1.toNat + 65536 * b2.toNat + 16777216 * b3.toNat

/-- The entry-reading loop of `Page::from_bytes` (`src/main.rs` lines
133-145), reading `k` length-prefixed entries from the remaining bytes.

Faithfulness notes:
* fewer than 4 remaining bytes (`offset + 4 > bytes.len()`) raises
  `InvalidData "Incomplete data"`;
* the Rust check `offset + len > bytes.len() || len > 200_000` raises the
  single error `InvalidData ("Invalid length: " ++ len)` — the two
  disjuncts are split here only to record the spec-taxonomy class of the
  failing check (the attached `IndexerError` is identical in both
  branches, so projecting the class away recovers the Rust behaviour
  exactly, whichever disjunct fired);
* a rejected payload raises `Memory ("Cue failed: " ++ msg)` where `msg`
  models the debug rendering of the external cue error. -/
def readEntriesC (cue : List UInt8 → Except String Noun) :
    List UInt8 → Nat → Except (DecodeErrorClass × IndexerError) (List Noun)
  | _, 0 => .ok []
  | b0 :: b1 :: b2 :: b3 :: tail, k + 1 =>
    let len := leU32 b0 b1 b2 b3
    if 200000 < len then
      .error (.fieldTooLarge, .InvalidData ("Invalid length: " ++ toString len))
    else if tail.length < len then
      .error (.truncated, .InvalidData ("Invalid length: " ++ toString len))
    else
      match cue (tail.take len) with
      | .error msg => .error (.deserializeFailed, .Memory ("Cue failed: " ++ msg))
      | .ok v => (readEntriesC cue (tail.drop len) k).map (fun ns => v :: ns)
  | _, _ + 1 => .error (.truncated, .InvalidData "Incomplete data")

/-- The decoded block record (`struct Page`, `src/main.rs` lines 59-71):
nine named nouns; the on-disk slot 1 (proof-of-work) is read and
discarded. -/
structure Page : Type where
  digest : Noun
  parent : Noun
  tx_ids : Noun
  coinbase : Noun
  timestamp : Noun
  epoch_counter : Noun
  target : Noun
  accumulated_work : Noun
  height : Noun
deriving DecidableEq, Repr

/-- `Page::from_bytes` (`src/main.rs` lines 129-163): read 10 entries, then
the (unreachable, as proved below) field-count check, then bind slots
0,2,3,4,5,6,7,8,9 to the named fields. -/
def from_bytes (cue : List UInt8 → Except String Noun) (bytes : List UInt8) :
    Except IndexerError (Option Page) :=
  match readEntriesC cue bytes 10 with
  | .error e => .error e.2
  | .ok [n0, _n1, n2, n3, n4, n5, n6, n7, n8, n9] =>
    .ok (some { digest := n0, parent := n2, tx_ids := n3, coinbase := n4,
                timestamp := n5, epoch_counter := n6, target := n7,
                accumulated_work := n8, height := n9 })
  | .ok _ => .error (.InvalidData "Wrong number of fields")

/-- `Page::get_field` (`src/main.rs` lines 73-91): dispatch on the field
name string; note the hyphenated keys. -/
def get_field (p : Page) (field : String) : Except IndexerError Noun :=
  if field = "digest" then .ok p.digest
  else if field = "parent" then .ok p.parent
  else if field = "tx-ids" then .ok p.tx_ids
  else if field = "coinbase" then .ok p.coinbase
  else if field = "timestamp" then .ok p.timestamp
  else if field = "epoch-counter" then .ok p.epoch_counter
  else if field = "target" then .ok p.target
  else if field = "accumulated-work" then .ok p.accumulated_work
  else if field = "height" then .ok p.height
  else .error (.InvalidData ("Unknown field: " ++ field))

/-- Models the derived `Debug` rendering of `IndexerError` used by
`format!("error: {:?}", e)` in `Page::format_as_ud`. -/
def errDebug : IndexerError → String
  | .RocksDB m => "RocksDB(" ++ m ++ ")"
  | .Hex m => "Hex(" ++ m ++ ")"
  | .InvalidData m => "InvalidData(\"" ++ m ++ "\")"
  | .Memory m => "Memory(\"" ++ m ++ "\")"

/-- Models the `Debug` rendering of a non-atom noun used by the
`"invalid (not atom)"` branch; its exact text is external and never
load-bearing for any claim. -/
def nounDebug : Noun → String
  | .atom v => toString v
  | .cell a b => "[" ++ nounDebug a ++ " " ++ nounDebug b ++ "]"

/-- `Page::format_as_ud` (`src/main.rs` lines 93-107).  The Rust function
always returns `Ok`, so it is modelled as returning the string directly.
`atom.as_u64()` succeeds exactly when the value fits in 64 bits and both
the fast `u64` path and the `as_ubig` fallback print the exact decimal
form of the same value, so both branches render `toString v`. -/
def format_as_ud (p : Page) (field : String) : String :=
  match get_field p field with
  | .ok noun =>
    match noun with
    | .atom v => if v < 2 ^ 64 then toString v else toString v
    | .cell a b => "invalid (not atom): " ++ nounDebug (.cell a b)
  | .error e => "error: " ++ errDebug e

/-- Lowercase hex digit, as produced by `hex::encode`. -/
def hexDigit (n : Nat) : Char :=
  if n < 10 then Char.ofNat (48 + n) else Char.ofNat (87 + n)

/-- `hex::encode` over the jammed bytes (`src/main.rs` line 116 etc.). -/
def hexEncode (bs : List UInt8) : String :=
  ⟨(bs.map (fun b => [hexDigit (b.toNat / 16), hexDigit (b.toNat % 16)])).flatten⟩

/-- Value of one hex digit character, accepting both cases, as
`hex::decode` does. -/
def hexCharVal (c : Char) : Option Nat :=
  if '0' ≤ c ∧ c ≤ '9' then some (c.toNat - 48)
  else if 'a' ≤ c ∧ c ≤ 'f' then some (c.toNat - 87)
  else if 'A' ≤ c ∧ c ≤ 'F' then some (c.toNat - 55)
  else none

/-- `hex::decode` (`src/main.rs` line 181): pairs of hex digits to bytes;
an odd count or a non-hex character is an error.  The exact error text of
the external crate is not load-bearing; only that the result is a `Hex`
error. -/
def hexDecodePairs : List Char → Except String (List UInt8)
  | [] => .ok []
  | [_] => .error "Odd number of digits"
  | c1 :: c2 :: rest =>
    match hexCharVal c1, hexCharVal c2 with
    | some hi, some lo =>
      match hexDecodePairs rest with
      | .ok bs => .ok (UInt8.ofNat (16 * hi + lo) :: bs)
      | .error e => .error e
    | _, _ => .error "Invalid character"

/-- UTF-8 encoding of one character, as `str::as_bytes` exposes it. -/
def charUtf8 (c : Char) : List UInt8 :=
  let n := c.toNat
  if n < 128 then [UInt8.ofNat n]
  else if n < 2048 then
    [UInt8.ofNat (192 + n / 64), UInt8.ofNat (128 + n % 64)]
  else if n < 65536 then
    [UInt8.ofNat (224 + n / 4096), UInt8.ofNat (128 + n / 64 % 64),
     UInt8.ofNat (128 + n % 64)]
  else
    [UInt8.ofNat (240 + n / 262144), UInt8.ofNat (128 + n / 4096 % 64),
     UInt8.ofNat (128 + n / 64 % 64), UInt8.ofNat (128 + n % 64)]

/-- `str::as_bytes` of a string, as a byte list. -/
def strUtf8 (s : String) : List UInt8 :=
  (s.data.map charUtf8).flatten

/-- The digest-key resolution of `Page::query_by_digest` (`src/main.rs`
lines 180-184): a digest starting with the marker resolves by hex-decoding
the remainder, any other digest's raw UTF-8 bytes are the key. -/
def digestKeyBytes (digest : String) : Except IndexerError (List UInt8) :=
  match digest.data with
  | '0' :: 'x' :: '_' :: rest =>
    match hexDecodePairs rest with
    | .ok bs => .ok bs
    | .error e => .error (.Hex e)
  | _ => .ok (strUtf8 digest)

/-- The two column families of the read-only store: association lists
keyed by raw bytes, standing for the RocksDB point lookups. -/
structure DB : Type where
  height_to_digest : List (List UInt8 × List UInt8)
  pages : List (List UInt8 × List UInt8)

/-- A RocksDB point lookup (`db.get_cf`) over a column family. -/
def cfGet (cf : List (List UInt8 × List UInt8)) (key : List UInt8) :
    Option (List UInt8) :=
  match cf with
  | [] => none
  | (k, v) :: rest => if k = key then some v else cfGet rest key

/-- `Page::query_by_height` (`src/main.rs` lines 165-176): height rendered
as its decimal string, resolved through `height_to_digest` then `pages`;
either miss yields `Ok(None)`. -/
def query_by_height (cue : List UInt8 → Except String Noun) (db : DB)
    (height : Nat) : Except IndexerError (Option Page) :=
  match cfGet db.height_to_digest (strUtf8 (toString height)) with
  | some digest_bytes =>
    match cfGet db.pages digest_bytes with
    | some page_bytes => from_bytes cue page_bytes
    | none => .ok none
  | none => .ok none

/-- `Page::query_by_digest` (`src/main.rs` lines 178-189). -/
def query_by_digest (cue : List UInt8 → Except String Noun) (db : DB)
    (digest : String) : Except IndexerError (Option Page) :=
  match digestKeyBytes digest with
  | .error e => .error e
  | .ok digest_bytes =>
    match cfGet db.pages digest_bytes with
    | some page_bytes => from_bytes cue page_bytes
    | none => .ok none

/-- The external `Block` wire shape (all fields strings). -/
structure Block : Type where
  digest : String
  parent : String
  tx_ids : String
  coinbase : String
  timestamp : String
  epoch_counter : String
  target : String
  accumulated_work : String
  height : String
deriving DecidableEq, Repr

/-- `Page::to_block` (`src/main.rs` lines 114-127): binary fields are
jammed then hex-encoded; the numeric fields go through `format_as_ud`
with the exact field-name strings the Rust call sites pass (note the
underscore in the `"epoch_counter"` argument).  The Rust function's
`Result` is always `Ok`, so it is modelled as returning the block. -/
def to_block (jam : Noun → List UInt8) (p : Page) : Block :=
  { digest := hexEncode (jam p.digest)
  , parent := hexEncode (jam p.parent)
  , tx_ids := hexEncode (jam p.tx_ids)
  , coinbase := hexEncode (jam p.coinbase)
  , timestamp := format_as_ud p "timestamp"
  , epoch_counter := format_as_ud p "epoch_counter"
  , target := hexEncode (jam p.target)
  , accumulated_work := hexEncode (jam p.accumulated_work)
  , height := format_as_ud p "height" }

/-- `NockchainServiceImpl::get_block_by_height` (`src/main.rs` lines
314-337), with the transport stripped: found pages are rendered, a miss is
an empty result, errors map through the `Status` conversion. -/
def get_block_by_height (cue : List UInt8 → Except String Noun)
    (jam : Noun → List UInt8) (db : DB) (height : Nat) :
    Except Status (Option Block) :=
  match query_by_height cue db height with
  | .ok (some page) => .ok (some (to_block jam page))
  | .ok none => .ok none
  | .error e => .error (statusOfIndexerError e)

/-- `NockchainServiceImpl::get_block_by_digest` (`src/main.rs` lines
339-363). -/
def get_block_by_digest (cue : List UInt8 → Except String Noun)
    (jam : Noun → List UInt8) (db : DB) (digest : String) :
    Except Status (Option Block) :=
  match query_by_digest cue db digest with
  | .ok (some page) => .ok (some (to_block jam page))
  | .ok none => .ok none
  | .error e => .error (statusOfIndexerError e)

/-- The 4-byte little-endian rendering of a length, inverse of `leU32`
below 2^32.  Spec-side (§4.1 `encode`), needed only for round-trip
statements. -/
def leBytes4 (n : Nat) : List UInt8 :=
  [UInt8.ofNat n, UInt8.ofNat (n / 256), UInt8.ofNat (n / 65536),
   UInt8.ofNat (n / 16777216)]

/-- Spec §4.1 `encode` for one entry: length prefix then payload. -/
def encodeEntry (payload : List UInt8) : List UInt8 :=
  leBytes4 payload.length ++ payload

/-- Spec §4.1 `encode`: concatenation of the encoded entries in order. -/
def encodeRecord : List (List UInt8) → List UInt8
  | [] => []
  | p :: ps => encodeEntry p ++ encodeRecord ps

/-! ## Concrete instances used to evaluate the theorems

Concrete stand-ins for the external codec capability and concrete store
contents, mirroring the spec's §8 scenario
(`height_to_digest["100"] = 0xAB12`, `pages[0xAB12] = <valid record>`). -/

/-- A concrete external deserializer that accepts every payload. -/
def cueW : List UInt8 → Except String Noun := fun bs => .ok (.atom bs.length)

/-- A concrete external deserializer that accepts every payload,
returning a fixed value. -/
def cueOk : List UInt8 → Except String Noun := fun _ => .ok (.atom 0)

/-- A concrete external deserializer that rejects every payload. -/
def cueRej : List UInt8 → Except String Noun := fun _ => .error "bad"

/-- A concrete external serializer. -/
def jamW : Noun → List UInt8 := fun _ => [0]

/-- The digest bytes 0xAB12 of the spec's §8 scenario. -/
def digestW : List UInt8 := [171, 18]

/-- A valid 10-entry record: ten single-byte payloads. -/
def recordW : List UInt8 :=
  encodeRecord [[100], [100], [100], [100], [100], [100], [100], [100], [100], [100]]

/-- Store of the spec's §8 scenario: height 100 maps to 0xAB12, which
maps to a valid record. -/
def dbW : DB :=
  { height_to_digest := [(strUtf8 (toString 100), digestW)]
  , pages := [(digestW, recordW)] }

/-- A store whose height index resolves to a digest with no `pages`
entry. -/
def dbW2 : DB := { height_to_digest := [(strUtf8 (toString 7), [9])], pages := [] }

/-- A store holding a record whose single readable entry the external
deserializer rejects. -/
def dbC3 : DB := { height_to_digest := [], pages := [([1], encodeEntry [255])] }

/-- A concrete decoded page whose `epoch_counter` field is the atom 5. -/
def pageC1 : Page :=
  { digest := .atom 1, parent := .atom 2, tx_ids := .atom 3, coinbase := .atom 4,
    timestamp := .atom 123, epoch_counter := .atom 5, target := .atom 6,
    accumulated_work := .atom 7, height := .atom 100 }

/-- A concrete decoded page whose numeric fields hold the atom 2^70,
which does not fit in 64 bits. -/
def pageBig : Page :=
  { digest := .atom 0, parent := .atom 0, tx_ids := .atom 0, coinbase := .atom 0,
    timestamp := .atom (2 ^ 70), epoch_counter := .atom (2 ^ 70),
    target := .atom 0, accumulated_work := .atom 0, height := .atom (2 ^ 70) }

/-! ## Helper lemmas about the codec -/

theorem leU32_leBytes4 (n : Nat) (h : n < 2 ^ 32) :
    leU32 (UInt8.ofNat n) (UInt8.ofNat (n / 256)) (UInt8.ofNat (n / 65536))
      (UInt8.ofNat (n / 16777216)) = n := by
  have h0 : (UInt8.ofNat n).toNat = n % 256 := UInt8.toNat_ofNat n
  have h1 : (UInt8.ofNat (n / 256)).toNat = n / 256 % 256 := UInt8.toNat_ofNat _
  have h2 : (UInt8.ofNat (n / 65536)).toNat = n / 65536 % 256 := UInt8.toNat_ofNat _
  have h3 : (UInt8.ofNat (n / 16777216)).toNat = n / 16777216 % 256 :=
    UInt8.toNat_ofNat _
  simp only [leU32, h0, h1, h2, h3]
  omega

theorem leBytes4_cons (n : Nat) (rest : List UInt8) :
    leBytes4 n ++ rest =
      UInt8.ofNat n :: UInt8.ofNat (n / 256) :: UInt8.ofNat (n / 65536) ::
        UInt8.ofNat (n / 16777216) :: rest := by
  simp [leBytes4]

theorem encodeRecord_cons (p : List UInt8) (ps : List (List UInt8))
    (rest : List UInt8) :
    encodeRecord (p :: ps) ++ rest =
      UInt8.ofNat p.length :: UInt8.ofNat (p.length / 256) ::
        UInt8.ofNat (p.length / 65536) :: UInt8.ofNat (p.length / 16777216) ::
        (p ++ (encodeRecord ps ++ rest)) := by
  simp [encodeRecord, encodeEntry, leBytes4]

/-- Reading `ps.length` well-formed, cue-accepted entries and then `j`
more from the remaining bytes: the well-formed entries are consumed
exactly and their values are prepended. -/
theorem readEntriesC_append (cue : List UInt8 → Except String Noun)
    {ps : List (List UInt8)} {vs : List Noun}
    (hcue : List.Forall₂ (fun p v => cue p = .ok v) ps vs) :
    (∀ p ∈ ps, p.length ≤ 200000) → ∀ (rest : List UInt8) (j : Nat),
      readEntriesC cue (encodeRecord ps ++ rest) (ps.length + j) =
        (readEntriesC cue rest j).map (fun ns => vs ++ ns) := by
  induction hcue with
  | nil =>
    intro _ rest j
    simp only [encodeRecord, List.nil_append, List.length_nil, Nat.zero_add]
    cases readEntriesC cue rest j <;> rfl
  | @cons p v ps' vs' hpv htail ih =>
    intro hlen rest j
    have hp : p.length ≤ 200000 := hlen p (by simp)
    have hlen' : ∀ q ∈ ps', q.length ≤ 200000 := fun q hq => hlen q (by simp [hq])
    have h32 : p.length < 2 ^ 32 := by omega
    have hc : (p :: ps').length + j = (ps'.length + j) + 1 := by
      simp only [List.length_cons]; omega
    rw [encodeRecord_cons, hc]
    simp only [readEntriesC, leU32_leBytes4 p.length h32]
    rw [if_neg (by omega)]
    rw [if_neg (by simp only [List.length_append]; omega)]
    rw [List.take_left, hpv, List.drop_left]
    rw [ih hlen' rest j]
    cases readEntriesC cue rest j <;> rfl

/-- Decoding a full well-formed encoding (possibly followed by excess
bytes) succeeds with exactly the cue values. -/
theorem readEntriesC_encode (cue : List UInt8 → Except String Noun)
    {ps : List (List UInt8)} {vs : List Noun}
    (hcue : List.Forall₂ (fun p v => cue p = .ok v) ps vs)
    (hlen : ∀ p ∈ ps, p.length ≤ 200000) (suf : List UInt8) :
    readEntriesC cue (encodeRecord ps ++ suf) ps.length = .ok vs := by
  have h := readEntriesC_append cue hcue hlen suf 0
  simpa [readEntriesC, Except.map] using h

/-- A successful read of `k` entries yields exactly `k` values. -/
theorem readEntriesC_length (cue : List UInt8 → Except String Noun) :
    ∀ (k : Nat) (rest : List UInt8) (ns : List Noun),
      readEntriesC cue rest k = .ok ns → ns.length = k := by
  intro k
  induction k with
  | zero =>
    intro rest ns h
    simp only [readEntriesC] at h
    cases h
    rfl
  | succ k ih =>
    intro rest ns h
    match rest with
    | [] => simp [readEntriesC] at h
    | [_] => simp [readEntriesC] at h
    | [_, _] => simp [readEntriesC] at h
    | [_, _, _] => simp [readEntriesC] at h
    | a :: b :: c :: d :: tail =>
      simp only [readEntriesC] at h
      split at h
      · cases h
      split at h
      · cases h
      split at h
      · cases h
      next v hv =>
        cases hrec : readEntriesC cue (tail.drop (leU32 a b c d)) k with
        | error e => rw [hrec] at h; cases h
        | ok ms =>
          rw [hrec] at h
          cases h
          simp [ih _ ms hrec]

theorem list_len10 {α : Type} (ns : List α) (h : ns.length = 10) :
    ∃ a0 a1 a2 a3 a4 a5 a6 a7 a8 a9,
      ns = [a0, a1, a2, a3, a4, a5, a6, a7, a8, a9] := by
  rcases ns with _ | ⟨a0, _ | ⟨a1, _ | ⟨a2, _ | ⟨a3, _ | ⟨a4, _ | ⟨a5, _ | ⟨a6,
    _ | ⟨a7, _ | ⟨a8, _ | ⟨a9, _ | ⟨a10, t⟩⟩⟩⟩⟩⟩⟩⟩⟩⟩⟩ <;>
    simp only [List.length_nil, List.length_cons] at h
  all_goals try omega
  exact ⟨a0, a1, a2, a3, a4, a5, a6, a7, a8, a9, rfl⟩

/-- `Page::from_bytes` either fails with the error of the entry-reading
loop, or succeeds with a fully populated record; it never returns
`Ok(None)` and the `"Wrong number of fields"` branch is dead. -/
theorem from_bytes_cases (cue : List UInt8 → Except String Noun)
    (bytes : List UInt8) :
    (∃ cls e, readEntriesC cue bytes 10 = .error (cls, e) ∧
      from_bytes cue bytes = .error e) ∨
    (∃ ns pg, readEntriesC cue bytes 10 = .ok ns ∧
      from_bytes cue bytes = .ok (some pg)) := by
  cases h : readEntriesC cue bytes 10 with
  | error e =>
    obtain ⟨cls, err⟩ := e
    left
    exact ⟨cls, err, rfl, by simp [from_bytes, h]⟩
  | ok ns =>
    right
    have hl := readEntriesC_length cue 10 bytes ns h
    obtain ⟨a0, a1, a2, a3, a4, a5, a6, a7, a8, a9, rfl⟩ := list_len10 ns hl
    exact ⟨[a0, a1, a2, a3, a4, a5, a6, a7, a8, a9],
      { digest := a0, parent := a2, tx_ids := a3, coinbase := a4,
        timestamp := a5, epoch_counter := a6, target := a7,
        accumulated_work := a8, height := a9 }, rfl, by simp [from_bytes, h]⟩

/-- Any strict byte-level truncation of a well-formed encoding fails in
the entry loop with the error class of a truncation check. -/
theorem readEntriesC_take_err (cue : List UInt8 → Except String Noun)
    {ps : List (List UInt8)} {vs : List Noun}
    (hcue : List.Forall₂ (fun p v => cue p = .ok v) ps vs) :
    (∀ p ∈ ps, p.length ≤ 200000) → ∀ m, m < (encodeRecord ps).length →
      ∃ e, readEntriesC cue ((encodeRecord ps).take m) ps.length =
        .error (.truncated, e) := by
  induction hcue with
  | nil =>
    intro _ m hm
    simp [encodeRecord] at hm
  | @cons p v ps' vs' hpv htail ih =>
    intro hlen m hm
    have hp : p.length ≤ 200000 := hlen p (by simp)
    have hlen' : ∀ q ∈ ps', q.length ≤ 200000 := fun q hq => hlen q (by simp [hq])
    have h32 : p.length < 2 ^ 32 := by omega
    have hrec : encodeRecord (p :: ps') =
        UInt8.ofNat p.length :: UInt8.ofNat (p.length / 256) ::
          UInt8.ofNat (p.length / 65536) :: UInt8.ofNat (p.length / 16777216) ::
          (p ++ encodeRecord ps') := by
      have := encodeRecord_cons p ps' []
      simpa using this
    rw [hrec] at hm ⊢
    have hc : (p :: ps').length = ps'.length + 1 := by
      simp only [List.length_cons]
    rw [hc]
    obtain _ | _ | _ | _ | m' := m
    · exact ⟨.InvalidData "Incomplete data", by simp [readEntriesC]⟩
    · exact ⟨.InvalidData "Incomplete data", by simp [readEntriesC, List.take]⟩
    · exact ⟨.InvalidData "Incomplete data", by simp [readEntriesC, List.take]⟩
    · exact ⟨.InvalidData "Incomplete data", by simp [readEntriesC, List.take]⟩
    · simp only [List.length_cons, List.length_append] at hm
      have hm' : m' < p.length + (encodeRecord ps').length := by omega
      simp only [List.take_succ_cons]
      simp only [readEntriesC, leU32_leBytes4 p.length h32]
      rw [if_neg (by omega)]
      by_cases hsplit : m' < p.length
      · rw [if_pos ?side]
        · exact ⟨_, rfl⟩
        · rw [List.length_take]
          simp only [List.length_append]
          omega
      · have hple : p.length ≤ m' := by omega
        rw [if_neg ?side2]
        case side2 =>
          rw [List.length_take]
          simp only [List.length_append]
          omega
        have htake : ((p ++ encodeRecord ps').take m').take p.length = p := by
          rw [List.take_take]
          rw [Nat.min_eq_left hple]
          exact List.take_left p _
        rw [htake, hpv]
        have hdrop : ((p ++ encodeRecord ps').take m').drop p.length =
            (encodeRecord ps').take (m' - p.length) := by
          rw [List.drop_take]
          rw [List.drop_left]
        rw [hdrop]
        obtain ⟨e, he⟩ := ih hlen' (m' - p.length) (by omega)
        rw [he]
        exact ⟨e, rfl⟩

theorem invalid_length_msg_ne (s : String) :
    "Invalid length: " ++ s ≠ "Wrong number of fields" := by
  intro h
  have h2 := congrArg String.data h
  rw [String.data_append] at h2
  simp at h2

/-- Every error of the entry-reading loop is one of the three errors the
Rust loop body can raise; in particular the `"Wrong number of fields"`
error never arises there. -/
theorem readEntriesC_error_shape (cue : List UInt8 → Except String Noun) :
    ∀ (k : Nat) (rest : List UInt8) (cls : DecodeErrorClass) (e : IndexerError),
      readEntriesC cue rest k = .error (cls, e) →
      e = .InvalidData "Incomplete data" ∨
      (∃ L : Nat, e = .InvalidData ("Invalid length: " ++ toString L)) ∨
      (∃ m : String, e = .Memory ("Cue failed: " ++ m)) := by
  intro k
  induction k with
  | zero =>
    intro rest cls e h
    simp [readEntriesC] at h
  | succ k ih =>
    intro rest cls e h
    match rest with
    | [] =>
      simp only [readEntriesC] at h
      cases h
      left; rfl
    | [_] =>
      simp only [readEntriesC] at h
      cases h
      left; rfl
    | [_, _] =>
      simp only [readEntriesC] at h
      cases h
      left; rfl
    | [_, _, _] =>
      simp only [readEntriesC] at h
      cases h
      left; rfl
    | a :: b :: c :: d :: tail =>
      simp only [readEntriesC] at h
      split at h
      · cases h
        right; left
        exact ⟨leU32 a b c d, rfl⟩
      split at h
      · cases h
        right; left
        exact ⟨leU32 a b c d, rfl⟩
      split at h
      · cases h
        right; right
        exact ⟨_, rfl⟩
      next v hv =>
        cases hrec : readEntriesC cue (tail.drop (leU32 a b c d)) k with
        | error e2 =>
          rw [hrec] at h
          simp only [Except.map] at h
          injection h with he2
          rw [he2] at hrec
          exact ih _ cls e hrec
        | ok ms =>
          rw [hrec] at h
          simp only [Except.map] at h
          cases h

/-! ## Claim theorems -/

/-- C1 (code-bug evidence): rendering a decoded record to the external
block shape does not produce the decimal string of the `epoch_counter`
atom.  `to_block` passes the key `"epoch_counter"` but `get_field` only
accepts `"epoch-counter"`, so the rendered field is the formatted lookup
error for every block, while `timestamp` and `height` do render as exact
decimal strings. -/
theorem to_block_epoch_counter_not_decimal :
    (to_block jamW pageC1).epoch_counter =
      "error: InvalidData(\"Unknown field: epoch_counter\")" ∧
    (to_block jamW pageC1).epoch_counter ≠ "5" ∧
    (to_block jamW pageC1).timestamp = "123" ∧
    (to_block jamW pageC1).height = "100" := by
  decide

/-- C10: a numeric field holding an atom that does not fit in 64 bits
(so the `as_u64` fast path is unavailable) still renders as the exact
decimal string of the value via the arbitrary-precision fallback — never
truncated or wrapped to 64 bits. -/
theorem format_as_ud_exact_bignum (p : Page) (v : Nat) (_hv : 2 ^ 64 ≤ v) :
    (p.timestamp = .atom v → format_as_ud p "timestamp" = toString v) ∧
    (p.epoch_counter = .atom v → format_as_ud p "epoch-counter" = toString v) ∧
    (p.height = .atom v → format_as_ud p "height" = toString v) := by
  refine ⟨?_, ?_, ?_⟩ <;> intro h <;> simp [format_as_ud, get_field, h]

theorem format_as_ud_exact_bignum_witness :
    format_as_ud pageBig "timestamp" = "1180591620717411303424" ∧
    format_as_ud pageBig "epoch-counter" = "1180591620717411303424" ∧
    format_as_ud pageBig "height" = "1180591620717411303424" ∧
    toString (2 ^ 70 % 2 ^ 64 : Nat) ≠ "1180591620717411303424" := by
  have h := format_as_ud_exact_bignum pageBig (2 ^ 70) (by norm_num)
  refine ⟨?_, ?_, ?_, by decide⟩
  · rw [h.1 rfl]; decide
  · rw [h.2.1 rfl]; decide
  · rw [h.2.2 rfl]; decide

/-- C2 counterexample: the empty buffer has fewer than 10 readable
entries, yet the decode fails with the truncation error
`"Incomplete data"`, not the `WrongFieldCount` error
`"Wrong number of fields"`. -/
theorem short_buffer_not_wrong_field_count :
    from_bytes cueOk [] = .error (.InvalidData "Incomplete data") ∧
    IndexerError.InvalidData "Incomplete data" ≠
      IndexerError.InvalidData "Wrong number of fields" := by
  decide

/-- C2 amended: when fewer than 10 entries are readable the decode fails
with the error of the failing read step (truncation, oversized length,
or rejected payload), and the `"Wrong number of fields"`
(`WrongFieldCount`) error is unreachable: `from_bytes` never returns it
on any input. -/
theorem from_bytes_never_wrong_field_count
    (cue : List UInt8 → Except String Noun) (bytes : List UInt8) :
    from_bytes cue bytes ≠ .error (.InvalidData "Wrong number of fields") ∧
    (∀ cls e, readEntriesC cue bytes 10 = .error (cls, e) →
      from_bytes cue bytes = .error e) := by
  constructor
  · intro hbad
    rcases from_bytes_cases cue bytes with ⟨cls, e, hr, hf⟩ | ⟨ns, pg, hr, hf⟩
    · rw [hf] at hbad
      injection hbad with he
      rcases readEntriesC_error_shape cue 10 bytes cls e hr with h1 | ⟨L, h2⟩ | ⟨m, h3⟩
      · rw [he] at h1
        exact absurd h1 (by decide)
      · rw [he] at h2
        injection h2 with hs
        exact invalid_length_msg_ne (toString L) hs.symm
      · rw [he] at h3
        cases h3
    · rw [hf] at hbad
      cases hbad
  · intro cls e hr
    rcases from_bytes_cases cue bytes with ⟨cls2, e2, hr2, hf⟩ | ⟨ns, pg, hr2, hf⟩
    · rw [hr] at hr2
      cases hr2
      exact hf
    · rw [hr] at hr2
      cases hr2

theorem from_bytes_never_wrong_field_count_witness :
    from_bytes cueOk [] ≠ .error (.InvalidData "Wrong number of fields") ∧
    from_bytes cueOk [] = .error (.InvalidData "Incomplete data") := by
  have h := from_bytes_never_wrong_field_count cueOk []
  exact ⟨h.1, h.2 .truncated (.InvalidData "Incomplete data") (by decide)⟩

/-- C4: an entry whose 4-byte prefix claims more than 200000 bytes makes
the decode fail at the oversized-length check (class `fieldTooLarge`,
distinct from the truncation class) with the error
`InvalidData "Invalid length: L"`, and the result is the same whatever
bytes follow the prefix — in particular even when `L` or more bytes
remain, the claimed payload is never read. -/
theorem oversized_prefix_field_too_large (cue : List UInt8 → Except String Noun)
    {ps : List (List UInt8)} {vs : List Noun}
    (hcue : List.Forall₂ (fun p v => cue p = .ok v) ps vs)
    (hlen : ∀ p ∈ ps, p.length ≤ 200000)
    (hk : ps.length < 10) (L : Nat) (hL : 200000 < L) (hL32 : L < 2 ^ 32)
    (tail : List UInt8) :
    readEntriesC cue (encodeRecord ps ++ (leBytes4 L ++ tail)) 10 =
      .error (.fieldTooLarge, .InvalidData ("Invalid length: " ++ toString L)) ∧
    from_bytes cue (encodeRecord ps ++ (leBytes4 L ++ tail)) =
      .error (.InvalidData ("Invalid length: " ++ toString L)) ∧
    DecodeErrorClass.fieldTooLarge ≠ DecodeErrorClass.truncated := by
  have h10 : 10 = ps.length + (10 - ps.length) := by omega
  obtain ⟨j, hj⟩ : ∃ j, 10 - ps.length = j + 1 := ⟨9 - ps.length, by omega⟩
  have hinner : readEntriesC cue (leBytes4 L ++ tail) (10 - ps.length) =
      .error (.fieldTooLarge, .InvalidData ("Invalid length: " ++ toString L)) := by
    rw [hj, leBytes4_cons]
    simp only [readEntriesC, leU32_leBytes4 L hL32]
    rw [if_pos hL]
  have hmain := readEntriesC_append cue hcue hlen (leBytes4 L ++ tail) (10 - ps.length)
  rw [hinner] at hmain
  have hE : readEntriesC cue (encodeRecord ps ++ (leBytes4 L ++ tail)) 10 =
      .error (.fieldTooLarge, .InvalidData ("Invalid length: " ++ toString L)) := by
    rw [h10, hmain]
    rfl
  exact ⟨hE, by simp [from_bytes, hE], by decide⟩

theorem oversized_prefix_field_too_large_witness :
    readEntriesC cueOk
        (encodeRecord [] ++ (leBytes4 200001 ++ List.replicate 200001 0)) 10 =
      .error (.fieldTooLarge, .InvalidData ("Invalid length: " ++ toString 200001)) ∧
    from_bytes cueOk
        (encodeRecord [] ++ (leBytes4 200001 ++ List.replicate 200001 0)) =
      .error (.InvalidData ("Invalid length: " ++ toString 200001)) ∧
    DecodeErrorClass.fieldTooLarge ≠ DecodeErrorClass.truncated :=
  oversized_prefix_field_too_large cueOk .nil (by decide) (by decide) 200001
    (by norm_num) (by norm_num) (List.replicate 200001 0)

/-- C5: the decode is total in the sense that it returns either a fully
decoded record or an error (never an absent success), and any buffer cut
short at any byte offset strictly before the end of a well-formed
10-entry encoding fails with a truncation-class error, which is exactly
the error `from_bytes` reports. -/
theorem decode_total_and_truncation (cue : List UInt8 → Except String Noun)
    {ps : List (List UInt8)} {vs : List Noun}
    (hcue : List.Forall₂ (fun p v => cue p = .ok v) ps vs)
    (hlen : ∀ p ∈ ps, p.length ≤ 200000)
    (h10 : ps.length = 10) (m : Nat) (hm : m < (encodeRecord ps).length) :
    (∀ bytes, from_bytes cue bytes ≠ .ok none) ∧
    ∃ e, readEntriesC cue ((encodeRecord ps).take m) 10 = .error (.truncated, e) ∧
      from_bytes cue ((encodeRecord ps).take m) = .error e := by
  constructor
  · intro bytes hbad
    rcases from_bytes_cases cue bytes with ⟨cls, e, hr, hf⟩ | ⟨ns, pg, hr, hf⟩
    · rw [hf] at hbad
      cases hbad
    · rw [hf] at hbad
      injection hbad with hsome
      cases hsome
  · obtain ⟨e, he⟩ := readEntriesC_take_err cue hcue hlen m hm
    rw [h10] at he
    exact ⟨e, he, by simp [from_bytes, he]⟩

theorem decode_total_and_truncation_witness :
    (∀ bytes, from_bytes cueW bytes ≠ .ok none) ∧
    ∃ e, readEntriesC cueW ((encodeRecord [[100], [100], [100], [100], [100],
          [100], [100], [100], [100], [100]]).take 7) 10 =
        .error (.truncated, e) ∧
      from_bytes cueW ((encodeRecord [[100], [100], [100], [100], [100],
          [100], [100], [100], [100], [100]]).take 7) = .error e := by
  have h1 : cueW [100] = .ok (.atom 1) := by decide
  exact decode_total_and_truncation cueW
    (.cons h1 (.cons h1 (.cons h1 (.cons h1 (.cons h1 (.cons h1 (.cons h1
      (.cons h1 (.cons h1 (.cons h1 .nil))))))))))
    (by decide) (by decide) 7 (by decide)

/-- C8: a buffer of 10 well-formed accepted entries followed by any
trailing junk decodes successfully, to the same record as the buffer
without the junk; the trailing bytes are ignored. -/
theorem trailing_bytes_ignored (cue : List UInt8 → Except String Noun)
    {p0 p1 p2 p3 p4 p5 p6 p7 p8 p9 : List UInt8}
    {v0 v1 v2 v3 v4 v5 v6 v7 v8 v9 : Noun}
    (hcue : List.Forall₂ (fun p v => cue p = .ok v)
      [p0, p1, p2, p3, p4, p5, p6, p7, p8, p9]
      [v0, v1, v2, v3, v4, v5, v6, v7, v8, v9])
    (hlen : ∀ p ∈ [p0, p1, p2, p3, p4, p5, p6, p7, p8, p9], p.length ≤ 200000)
    (junk : List UInt8) :
    from_bytes cue
        (encodeRecord [p0, p1, p2, p3, p4, p5, p6, p7, p8, p9] ++ junk) =
      .ok (some { digest := v0, parent := v2, tx_ids := v3, coinbase := v4,
                  timestamp := v5, epoch_counter := v6, target := v7,
                  accumulated_work := v8, height := v9 }) ∧
    from_bytes cue
        (encodeRecord [p0, p1, p2, p3, p4, p5, p6, p7, p8, p9] ++ junk) =
      from_bytes cue (encodeRecord [p0, p1, p2, p3, p4, p5, p6, p7, p8, p9]) := by
  have hjunk := readEntriesC_encode cue hcue hlen junk
  have hnil := readEntriesC_encode cue hcue hlen []
  rw [List.append_nil] at hnil
  simp only [List.length_cons, List.length_nil] at hjunk hnil
  norm_num at hjunk hnil
  constructor
  · simp [from_bytes, hjunk]
  · simp [from_bytes, hjunk, hnil]

theorem trailing_bytes_ignored_witness :
    from_bytes cueW (encodeRecord [[100], [100], [100], [100], [100], [100],
        [100], [100], [100], [100]] ++ [222, 173]) =
      .ok (some { digest := .atom 1, parent := .atom 1, tx_ids := .atom 1,
                  coinbase := .atom 1, timestamp := .atom 1,
                  epoch_counter := .atom 1, target := .atom 1,
                  accumulated_work := .atom 1, height := .atom 1 }) ∧
    from_bytes cueW (encodeRecord [[100], [100], [100], [100], [100], [100],
        [100], [100], [100], [100]] ++ [222, 173]) =
      from_bytes cueW (encodeRecord [[100], [100], [100], [100], [100], [100],
        [100], [100], [100], [100]]) := by
  have h1 : cueW [100] = .ok (.atom 1) := by decide
  exact trailing_bytes_ignored cueW
    (.cons h1 (.cons h1 (.cons h1 (.cons h1 (.cons h1 (.cons h1 (.cons h1
      (.cons h1 (.cons h1 (.cons h1 .nil))))))))))
    (by decide) [222, 173]

theorem forall2_map_of_mem {α β : Type} (f : α → β) (R : β → α → Prop)
    (l : List α) (h : ∀ a ∈ l, R (f a) a) : List.Forall₂ R (l.map f) l := by
  induction l with
  | nil => exact .nil
  | cons a t ih => exact .cons (h a (by simp)) (ih (fun x hx => h x (by simp [hx])))

/-- C9: decoding the encoding of any 10 values whose serialized forms
are each at most 200000 bytes (and which the external scheme
deserializes back) yields exactly those values, and `from_bytes`
succeeds on the encoding. -/
theorem decode_encode_roundtrip (cue : List UInt8 → Except String Noun)
    (jam : Noun → List UInt8) (vals : List Noun) (h10 : vals.length = 10)
    (hlen : ∀ v ∈ vals, (jam v).length ≤ 200000)
    (hjc : ∀ v ∈ vals, cue (jam v) = .ok v) :
    readEntriesC cue (encodeRecord (vals.map jam)) 10 = .ok vals ∧
    ∃ pg, from_bytes cue (encodeRecord (vals.map jam)) = .ok (some pg) := by
  have hcue : List.Forall₂ (fun p v => cue p = .ok v) (vals.map jam) vals :=
    forall2_map_of_mem jam (fun p v => cue p = .ok v) vals hjc
  have hplen : ∀ p ∈ vals.map jam, p.length ≤ 200000 := by
    intro p hp
    obtain ⟨v, hv, rfl⟩ := List.mem_map.mp hp
    exact hlen v hv
  have henc := readEntriesC_encode cue hcue hplen []
  rw [List.append_nil] at henc
  have hcount : (vals.map jam).length = 10 := by simp [h10]
  rw [hcount] at henc
  refine ⟨henc, ?_⟩
  obtain ⟨a0, a1, a2, a3, a4, a5, a6, a7, a8, a9, rfl⟩ := list_len10 vals h10
  simp only [List.map_cons, List.map_nil] at henc
  exact ⟨{ digest := a0, parent := a2, tx_ids := a3, coinbase := a4,
           timestamp := a5, epoch_counter := a6, target := a7,
           accumulated_work := a8, height := a9 }, by simp [from_bytes, henc]⟩

theorem decode_encode_roundtrip_witness :
    readEntriesC cueW (encodeRecord ((List.replicate 10 (Noun.atom 1)).map jamW)) 10 =
      .ok (List.replicate 10 (Noun.atom 1)) ∧
    ∃ pg, from_bytes cueW (encodeRecord ((List.replicate 10 (Noun.atom 1)).map jamW)) =
      .ok (some pg) :=
  decode_encode_roundtrip cueW jamW (List.replicate 10 (.atom 1)) (by decide)
    (by decide) (by decide)

/-- C3 counterexample: with a store holding a record whose first entry
the external deserializer rejects, the digest query fails with the
resource-exhausted status — not an internal or invalid-argument status
as the claim states. -/
theorem cue_reject_not_internal_status :
    get_block_by_digest cueRej jamW dbC3 "0x_01" =
      .error (.resourceExhausted "Memory error: Cue failed: bad") ∧
    Status.isInternalOrInvalidData
      (.resourceExhausted "Memory error: Cue failed: bad") = false := by
  decide

/-- C3 amended: a stored record with a payload the external deserializer
rejects fails the decode with the `DeserializeFailed`-class error, which
the code wraps as `Memory ("Cue failed: …")`; the `Status` conversion
surfaces that as a resource-exhausted status, not an internal or
invalid-argument one. -/
theorem cue_reject_surfaced_as_resource_exhausted
    (cue : List UInt8 → Except String Noun)
    {ps : List (List UInt8)} {vs : List Noun}
    (hcue : List.Forall₂ (fun p v => cue p = .ok v) ps vs)
    (hlen : ∀ p ∈ ps, p.length ≤ 200000)
    (hk : ps.length < 10) (q : List UInt8) (hq : q.length ≤ 200000)
    (msg : String) (hrej : cue q = .error msg) (rest : List UInt8) :
    readEntriesC cue (encodeRecord ps ++ (encodeEntry q ++ rest)) 10 =
      .error (.deserializeFailed, .Memory ("Cue failed: " ++ msg)) ∧
    from_bytes cue (encodeRecord ps ++ (encodeEntry q ++ rest)) =
      .error (.Memory ("Cue failed: " ++ msg)) ∧
    statusOfIndexerError (.Memory ("Cue failed: " ++ msg)) =
      .resourceExhausted ("Memory error: " ++ ("Cue failed: " ++ msg)) ∧
    (statusOfIndexerError
      (.Memory ("Cue failed: " ++ msg))).isInternalOrInvalidData = false := by
  have h10 : 10 = ps.length + (10 - ps.length) := by omega
  obtain ⟨j, hj⟩ : ∃ j, 10 - ps.length = j + 1 := ⟨9 - ps.length, by omega⟩
  have h32 : q.length < 2 ^ 32 := by omega
  have hform : encodeEntry q ++ rest =
      UInt8.ofNat q.length :: UInt8.ofNat (q.length / 256) ::
        UInt8.ofNat (q.length / 65536) :: UInt8.ofNat (q.length / 16777216) ::
        (q ++ rest) := by
    simp [encodeEntry, leBytes4]
  have hinner : readEntriesC cue (encodeEntry q ++ rest) (10 - ps.length) =
      .error (.deserializeFailed, .Memory ("Cue failed: " ++ msg)) := by
    rw [hj, hform]
    simp only [readEntriesC, leU32_leBytes4 q.length h32]
    rw [if_neg (by omega)]
    rw [if_neg (by simp only [List.length_append]; omega)]
    rw [List.take_left, hrej]
  have hmain := readEntriesC_append cue hcue hlen (encodeEntry q ++ rest)
    (10 - ps.length)
  rw [hinner] at hmain
  have hE : readEntriesC cue (encodeRecord ps ++ (encodeEntry q ++ rest)) 10 =
      .error (.deserializeFailed, .Memory ("Cue failed: " ++ msg)) := by
    rw [h10, hmain]
    rfl
  exact ⟨hE, by simp [from_bytes, hE], rfl, rfl⟩

theorem cue_reject_surfaced_witness :
    readEntriesC cueRej (encodeRecord [] ++ (encodeEntry [255] ++ [])) 10 =
      .error (.deserializeFailed, .Memory ("Cue failed: " ++ "bad")) ∧
    from_bytes cueRej (encodeRecord [] ++ (encodeEntry [255] ++ [])) =
      .error (.Memory ("Cue failed: " ++ "bad")) ∧
    statusOfIndexerError (.Memory ("Cue failed: " ++ "bad")) =
      .resourceExhausted ("Memory error: " ++ ("Cue failed: " ++ "bad")) ∧
    (statusOfIndexerError
      (.Memory ("Cue failed: " ++ "bad"))).isInternalOrInvalidData = false :=
  cue_reject_surfaced_as_resource_exhausted cueRej .nil (by decide) (by decide)
    [255] (by decide) "bad" (by decide) []

/-- C6: if the height index stores digest bytes `d` for height `h`, and
the supplied digest string resolves to the same key bytes `d` (for
example the hex-prefixed form), the two query operations return
identical responses — in particular the same external block. -/
theorem height_digest_same_block (cue : List UInt8 → Except String Noun)
    (jam : Noun → List UInt8) (db : DB) (h : Nat) (s : String) (d : List UInt8)
    (hh : cfGet db.height_to_digest (strUtf8 (toString h)) = some d)
    (hs : digestKeyBytes s = .ok d) :
    get_block_by_height cue jam db h = get_block_by_digest cue jam db s := by
  unfold get_block_by_height get_block_by_digest query_by_height query_by_digest
  rw [hh, hs]

theorem height_digest_same_block_witness :
    get_block_by_height cueW jamW dbW 100 =
      get_block_by_digest cueW jamW dbW "0x_ab12" :=
  height_digest_same_block cueW jamW dbW 100 "0x_ab12" digestW
    (by decide) (by decide)

/-- C7: a height or digest key that fails to resolve to a stored record
— a height absent from the index, a height resolving to a digest with no
`pages` entry, or a digest key resolving to bytes with no `pages` entry —
yields the empty result from both operations, never an error. -/
theorem not_found_empty_result (cue : List UInt8 → Except String Noun)
    (jam : Noun → List UInt8) (db : DB) :
    (∀ h : Nat, cfGet db.height_to_digest (strUtf8 (toString h)) = none →
      get_block_by_height cue jam db h = .ok none) ∧
    (∀ (h : Nat) (d : List UInt8),
      cfGet db.height_to_digest (strUtf8 (toString h)) = some d →
      cfGet db.pages d = none → get_block_by_height cue jam db h = .ok none) ∧
    (∀ (s : String) (d : List UInt8), digestKeyBytes s = .ok d →
      cfGet db.pages d = none → get_block_by_digest cue jam db s = .ok none) := by
  refine ⟨?_, ?_, ?_⟩
  · intro h hh
    unfold get_block_by_height query_by_height
    rw [hh]
  · intro h d hh hp
    unfold get_block_by_height query_by_height
    rw [hh]
    simp [hp]
  · intro s d hs hp
    unfold get_block_by_digest query_by_digest
    rw [hs]
    simp [hp]

theorem not_found_empty_result_witness :
    get_block_by_height cueW jamW dbW 101 = .ok none ∧
    get_block_by_height cueW jamW dbW2 7 = .ok none ∧
    get_block_by_digest cueW jamW dbW "0x_ab13" = .ok none := by
  refine ⟨?_, ?_, ?_⟩
  · exact (not_found_empty_result cueW jamW dbW).1 101 (by decide)
  · exact (not_found_empty_result cueW jamW dbW2).2.1 7 [9] (by decide) (by decide)
  · exact (not_found_empty_result cueW jamW dbW).2.2 "0x_ab13" [171, 19]
      (by decide) (by decide)
